import Mathlib

/-!
Verification of the core logic of go-certbot-cloudflare: the dual-resolver
TXT lookup reconciliation (helpers.go, lookupCompareTXT), the zone-location
walk, the challenge-subdomain construction, the nameserver-pair selection and
the convergence-polling loop (main.go and the wildcard-aware main revision).

Modelling conventions:
- Go byte strings used as DNS names are modelled as List Char (the names in
  play are ASCII, so Go byte indexing coincides with character indexing);
  TXT values and error messages stay Lean String.
- A Go (value, error) pair where the value may be a nil slice is modelled as
  an Option on the value side plus an Option error; nil maps to none.
- The Go error sentinel errInconsistent, compared by identity in the source,
  is modelled as a dedicated constructor, distinct from any message-carrying
  error even when the messages coincide.
- Loops are modelled as structurally recursive functions on an explicit
  fuel argument; the exported wrappers instantiate fuel with a bound that
  provably dominates the loop depth, so the fuel-exhausted branch is
  unreachable on the wrappers' arguments.
-/

/-- Error values as the Go code distinguishes them: the shared sentinel
errInconsistent (compared by identity in the source) versus any other
error value carrying a message. -/
inductive GoErr where
  | inconsistent
  | other (msg : String)
deriving DecidableEq, Repr

/-- Message of an error value, as err.Error() would return it; the sentinel
carries the fixed message from helpers.go. -/
def errMessage : GoErr → String
  | GoErr.inconsistent => "[error] Inconsistent record count from CF_NS1 and CF_NS2"
  | GoErr.other msg => msg

/-- A Go pair ([]string, error): res is none when the slice is nil. Used both
for one endpoint's LookupTXT answer and for the result of lookupCompareTXT. -/
structure LookupReturn where
  res : Option (List String)
  err : Option GoErr
deriving DecidableEq, Repr

/-- Model of strSliceLookup from helpers.go: linear scan for an exact string
match of needle in haystack. -/
def strSliceLookup (haystack : List String) (needle : String) : Bool :=
  haystack.any (fun h => h == needle)

/-- Model of strings.Contains: sub occurs as a contiguous substring of s. -/
def strContains (s sub : String) : Bool :=
  decide (sub.data <:+: s.data)

/-- Model of lookupCompareTXT from helpers.go, after the two concurrent
LookupTXT calls have produced their answers a1 (CF_NS1) and a2 (CF_NS2):
first endpoint's error wins, then second's; a nil result from either
endpoint is its own error; differing lengths give the inconsistent sentinel;
then every value of res1 is scanned for in res2 (one direction only, as in
the source) and on success res1 itself is returned. -/
def lookupCompareTXT (a1 a2 : LookupReturn) : LookupReturn :=
  match a1.err with
  | some e1 => ⟨none, some e1⟩
  | none =>
    match a2.err with
    | some e2 => ⟨none, some e2⟩
    | none =>
      match a1.res with
      | none => ⟨none, some (GoErr.other "[error] Nameserver from CF_NS1 did not respond")⟩
      | some res1 =>
        match a2.res with
        | none => ⟨none, some (GoErr.other "[error] Nameserver from CF_NS2 did not respond")⟩
        | some res2 =>
          if res1.length ≠ res2.length then ⟨none, some GoErr.inconsistent⟩
          else if res1.all (fun v => strSliceLookup res2 v) then ⟨some res1, none⟩
          else ⟨none, some GoErr.inconsistent⟩

/-- Model of strings.IndexByte on a character list: index of the first
occurrence, none when absent. -/
def goIndexByte : List Char → Char → Option Nat
  | [], _ => none
  | a :: l, c => if a = c then some 0 else (goIndexByte l c).map (· + 1)

/-- Model of strings.LastIndexByte on a character list: index of the last
occurrence, none when absent. -/
def goLastIndexByte : List Char → Char → Option Nat
  | [], _ => none
  | a :: l, c =>
    match goLastIndexByte l c with
    | some i => some (i + 1)
    | none => if a = c then some 0 else none

/-- Go integer result of strings.IndexByte: the index, or -1 when absent. -/
def goIndexByteInt (l : List Char) (c : Char) : Int :=
  match goIndexByte l c with
  | some i => (i : Int)
  | none => -1

/-- Go integer result of strings.LastIndexByte: the index, or -1 when absent. -/
def goLastIndexByteInt (l : List Char) (c : Char) : Int :=
  match goLastIndexByte l c with
  | some i => (i : Int)
  | none => -1

/-- Loop body of the zone-location walk in main.go: the provider predicate
abstracts one successful Cloudflare zones query by name (true when the
result list is non-empty). Each iteration queries the current candidate; on
an empty result it computes tldPos (last dot) and sldPos (first dot), stops
with no zone when sldPos = tldPos or sldPos = -1, and otherwise drops the
leftmost label (everything through the first dot) and retries. Returns the
list of names queried, in order, together with the matched zone name if any.
The fuel argument makes the recursion structural; the wrapper zoneWalk feeds
it enough fuel that the zero branch is never taken. -/
def zoneWalkGo (provider : List Char → Bool) : Nat → List Char → List (List Char) × Option (List Char)
  | 0, _ => ([], none)
  | fuel + 1, zoneDomain =>
    if provider zoneDomain then ([zoneDomain], some zoneDomain)
    else if goIndexByteInt zoneDomain '.' = goLastIndexByteInt zoneDomain '.' ∨
        goIndexByteInt zoneDomain '.' = -1 then
      ([zoneDomain], none)
    else
      let r := zoneWalkGo provider fuel (zoneDomain.drop ((goIndexByteInt zoneDomain '.').toNat + 1))
      (zoneDomain :: r.1, r.2)

/-- Zone-location walk of main.go on the requested domain. The first
component is the trace of provider queries issued, the second the located
zone name (none models the ZoneNotFound failure). -/
def zoneWalk (provider : List Char → Bool) (domain : List Char) : List (List Char) × Option (List Char) :=
  zoneWalkGo provider (domain.length + 1) domain

/-- Fixed challenge label, the chRecName constant of main.go. -/
def chRecName : List Char := "_acme-challenge".data

/-- Challenge record name construction from the wildcard-aware main
(src/unnamed/part_000): when the requested domain is longer than two bytes
and starts with the two bytes asterisk-dot, that prefix is stripped; the
chRecName label and a dot are prefixed to the remainder, otherwise to the
requested domain itself. -/
def subdomainFor (domain : List Char) : List Char :=
  if domain.length > 2 ∧ domain.take 2 = ['*', '.'] then
    chRecName ++ ['.'] ++ domain.drop 2
  else
    chRecName ++ ['.'] ++ domain

/-- Nameserver-pair selection of main.go: the run aborts (none, modelling
the insufficient-nameservers error print and return) when the zone's
nameserver list has fewer than two entries, and otherwise uses exactly
entries 0 and 1. -/
def selectNameservers (ns : List String) : Option (String × String) :=
  if h : ns.length < 2 then none
  else some (ns.get ⟨0, by omega⟩, ns.get ⟨1, by omega⟩)

/-- Action the polling loop in main.go takes on one lookup outcome:
continue after the 1-second sleep, return fatally with the error, or break
out of the loop with the records that contained the expected token. -/
inductive StepAct where
  | retry
  | fatal (e : GoErr)
  | converged (vals : List String)
deriving DecidableEq, Repr

/-- Final check of one polling iteration in main.go, reached when the error
was the inconsistency sentinel handled earlier, a record-not-found error, or
nil: retry when dnsRes is nil, empty, or lacks the expected token vt;
otherwise the loop breaks having converged. -/
def resTokenCheck (vt : String) (res : Option (List String)) : StepAct :=
  match res with
  | none => StepAct.retry
  | some l =>
    if l.length = 0 ∨ strSliceLookup l vt = false then StepAct.retry
    else StepAct.converged l

/-- One iteration body of the polling loop in main.go, given the outcome o
of lookupCompareTXT: identity with the errInconsistent sentinel causes a
retry; any other non-nil error whose message does not contain the substring
no such host returns fatally with that error unchanged; otherwise the
record check resTokenCheck decides. -/
def classifyStep (vt : String) (o : LookupReturn) : StepAct :=
  if o.err = some GoErr.inconsistent then StepAct.retry
  else
    match o.err with
    | some e =>
      if strContains (errMessage e) "no such host" = false then StepAct.fatal e
      else resTokenCheck vt o.res
    | none => resTokenCheck vt o.res

/-- Terminal outcome of the polling loop: converged with the attempt count
and the records found, gave up after exhausting the attempt budget, or a
fatal lookup error. -/
inductive PollResult where
  | converged (attempts : Nat) (vals : List String)
  | gaveUp
  | fatal (e : GoErr)
deriving DecidableEq, Repr

/-- Polling loop of main.go over a stream σ of lookup outcomes (σ k is the
result of the lookup performed when the attempts counter holds k + 1). Each
iteration increments attempts, gives up as soon as the counter exceeds 30
(without performing a further lookup), and otherwise performs the lookup and
acts on classifyStep. Returns the terminal outcome paired with the number of
lookups performed. The fuel argument makes the recursion structural; the
wrapper pollUntilConverged supplies fuel 31, which dominates the loop depth,
and the fuel-exhausted branch coincides with the give-up outcome. -/
def pollGo (vt : String) (σ : Nat → LookupReturn) : Nat → Nat → PollResult × Nat
  | 0, _ => (PollResult.gaveUp, 0)
  | fuel + 1, attempts =>
    if attempts + 1 > 30 then (PollResult.gaveUp, 0)
    else
      match classifyStep vt (σ attempts) with
      | StepAct.retry =>
        let r := pollGo vt σ fuel (attempts + 1)
        (r.1, r.2 + 1)
      | StepAct.fatal e => (PollResult.fatal e, 1)
      | StepAct.converged vals => (PollResult.converged (attempts + 1) vals, 1)

/-- Polling phase of main.go: attempts starts at 0 and the loop runs until
convergence, a fatal error, or the attempt budget is exhausted. -/
def pollUntilConverged (vt : String) (σ : Nat → LookupReturn) : PollResult × Nat :=
  pollGo vt σ 31 0

/-- Claim C1 counterexample: the two endpoint answers ["a", "a"] and ["a", "b"]
have equal length and differ as multisets (the count of "b" differs), yet
lookupCompareTXT accepts them, returning success with the first list rather
than the inconsistency error: the reconciliation scan is one-directional, so
a duplicated value on side one masks a substituted value on side two. -/
theorem lookupCompareTXT_multiset_cex :
    lookupCompareTXT ⟨some ["a", "a"], none⟩ ⟨some ["a", "b"], none⟩ =
      ⟨some ["a", "a"], none⟩ ∧
    ¬ (["a", "a"] : List String).Perm ["a", "b"] ∧
    (["a", "a"] : List String).length = (["a", "b"] : List String).length := by
  refine ⟨by decide, by decide, by decide⟩

/-- Claim C1 amended: lookupCompareTXT returns the inconsistency sentinel exactly
when the two answer lists differ in length or some value of the first
endpoint's list has no exact match in the second; the scan is
one-directional, so an equal-length pair in which every first-list value
occurs in the second is accepted even when the lists differ as multisets. -/
theorem lookupCompareTXT_inconsistent_cases (r1 r2 : List String)
    (h : r1.length ≠ r2.length ∨ ∃ v ∈ r1, strSliceLookup r2 v = false) :
    lookupCompareTXT ⟨some r1, none⟩ ⟨some r2, none⟩ = ⟨none, some GoErr.inconsistent⟩ := by
  by_cases hlen : r1.length = r2.length
  · obtain ⟨v, hv, hlook⟩ := h.resolve_left (by simp [hlen])
    cases hall : r1.all (fun v => strSliceLookup r2 v) with
    | true => exact absurd ((List.all_eq_true.mp hall) v hv) (by simp [hlook])
    | false => simp [lookupCompareTXT, hlen, hall]
  · simp [lookupCompareTXT, hlen]

/-- Witness for lookupCompareTXT_inconsistent_cases at the concrete pair
(["x"], []). -/
theorem lookupCompareTXT_inconsistent_cases_witness :
    ((["x"] : List String).length ≠ ([] : List String).length ∨
      ∃ v ∈ (["x"] : List String), strSliceLookup [] v = false) ∧
    lookupCompareTXT ⟨some ["x"], none⟩ ⟨some [], none⟩ = ⟨none, some GoErr.inconsistent⟩ :=
  ⟨Or.inl (by decide), lookupCompareTXT_inconsistent_cases ["x"] [] (Or.inl (by decide))⟩

/-- Claim C8: on any two endpoint answers that are equal as multisets, in
whatever order, lookupCompareTXT succeeds and returns the shared value set
(concretely, the first endpoint's list, a permutation of both inputs). -/
theorem lookupCompareTXT_perm_success (r1 r2 : List String) (h : r1.Perm r2) :
    lookupCompareTXT ⟨some r1, none⟩ ⟨some r2, none⟩ = ⟨some r1, none⟩ := by
  have hlen : r1.length = r2.length := h.length_eq
  have hall : r1.all (fun v => strSliceLookup r2 v) = true := by
    rw [List.all_eq_true]
    intro v hv
    simp only [strSliceLookup, List.any_eq_true]
    exact ⟨v, h.mem_iff.mp hv, by simp⟩
  simp [lookupCompareTXT, hlen, hall]

/-- Witness for lookupCompareTXT_perm_success at the reordered pair
(["x", "y"], ["y", "x"]). -/
theorem lookupCompareTXT_perm_success_witness :
    (["x", "y"] : List String).Perm ["y", "x"] ∧
    lookupCompareTXT ⟨some ["x", "y"], none⟩ ⟨some ["y", "x"], none⟩ =
      ⟨some ["x", "y"], none⟩ :=
  ⟨by decide, lookupCompareTXT_perm_success ["x", "y"] ["y", "x"] (by decide)⟩

/-- Claim C10: whenever lookupCompareTXT succeeds its value list is exactly the
first endpoint's answer list (order and duplicates preserved), and whenever
both endpoints report errors the first endpoint's error is the one
returned. -/
theorem lookupCompareTXT_first_endpoint :
    (∀ a1 a2 : LookupReturn, (lookupCompareTXT a1 a2).err = none →
      (lookupCompareTXT a1 a2).res = a1.res) ∧
    (∀ a1 a2 : LookupReturn, ∀ e1 e2 : GoErr, a1.err = some e1 → a2.err = some e2 →
      lookupCompareTXT a1 a2 = ⟨none, some e1⟩) := by
  constructor
  · intro a1 a2 h
    obtain ⟨r1, e1⟩ := a1
    obtain ⟨r2, e2⟩ := a2
    cases e1 <;> cases e2 <;> cases r1 <;> cases r2 <;>
      first
      | (simp_all [lookupCompareTXT]; split_ifs at h ⊢ <;> simp_all)
      | simp_all [lookupCompareTXT]
  · intro a1 a2 e1 e2 h1 h2
    obtain ⟨r1, e1'⟩ := a1
    simp_all [lookupCompareTXT]

/-- Witness for lookupCompareTXT_first_endpoint: a success case returning
the first endpoint's list and a double-failure case returning the first
endpoint's error. -/
theorem lookupCompareTXT_first_endpoint_witness :
    (lookupCompareTXT ⟨some ["v", "v"], none⟩ ⟨some ["v", "w"], none⟩).res =
      some ["v", "v"] ∧
    lookupCompareTXT ⟨none, some (GoErr.other "e1")⟩ ⟨none, some (GoErr.other "e2")⟩ =
      ⟨none, some (GoErr.other "e1")⟩ :=
  ⟨lookupCompareTXT_first_endpoint.1 ⟨some ["v", "v"], none⟩ ⟨some ["v", "w"], none⟩ (by decide),
   lookupCompareTXT_first_endpoint.2 ⟨none, some (GoErr.other "e1")⟩
     ⟨none, some (GoErr.other "e2")⟩ (GoErr.other "e1") (GoErr.other "e2") rfl rfl⟩

/-- Claim C7: the nameserver-pair selection fails when the zone lists fewer than
two nameserver hostnames, and with two or more it uses exactly the first
two, ignoring the rest. -/
theorem nameservers_first_two :
    (∀ ns : List String, ns.length < 2 → selectNameservers ns = none) ∧
    (∀ (n1 n2 : String) (rest : List String),
      selectNameservers (n1 :: n2 :: rest) = some (n1, n2)) := by
  constructor
  · intro ns h
    simp [selectNameservers, h]
  · intro n1 n2 rest
    have h2 : ¬ (n1 :: n2 :: rest).length < 2 := by simp
    simp [selectNameservers, h2]

/-- Witness for nameservers_first_two: a one-element list is rejected and a
three-element list yields its first two entries. -/
theorem nameservers_first_two_witness :
    selectNameservers ["ns1.cf.com"] = none ∧
    selectNameservers ["ns1.cf.com", "ns2.cf.com", "ns3.cf.com"] =
      some ("ns1.cf.com", "ns2.cf.com") :=
  ⟨nameservers_first_two.1 ["ns1.cf.com"] (by decide),
   nameservers_first_two.2 "ns1.cf.com" "ns2.cf.com" ["ns3.cf.com"]⟩

/-- Claim C2: the challenge record name is the fixed label _acme-challenge
prefixed with a dot to the originally requested domain, with a leading
asterisk-dot wildcard prefix stripped; a non-wildcard name is used as is,
so a subdomain keeps all its labels (the zone apex plays no role). The
conjuncts also record the two concrete examples from the specification. -/
theorem challenge_record_name :
    (∀ rest : List Char, rest ≠ [] →
      subdomainFor ('*' :: '.' :: rest) = "_acme-challenge.".data ++ rest) ∧
    (∀ d : List Char, d.take 2 ≠ ['*', '.'] →
      subdomainFor d = "_acme-challenge.".data ++ d) ∧
    subdomainFor "*.example.com".data = "_acme-challenge.example.com".data ∧
    subdomainFor "sub.example.com".data = "_acme-challenge.sub.example.com".data := by
  have hpre : (chRecName ++ ['.'] : List Char) = "_acme-challenge.".data := by decide
  refine ⟨?_, ?_, by decide, by decide⟩
  · intro rest hrest
    have hlen : ('*' :: '.' :: rest).length > 2 := by
      cases rest with
      | nil => exact absurd rfl hrest
      | cons a t => simp
    have htake : ('*' :: '.' :: rest).take 2 = ['*', '.'] := rfl
    rw [subdomainFor, if_pos ⟨hlen, htake⟩]
    rw [show List.drop 2 ('*' :: '.' :: rest) = rest from rfl, hpre]
  · intro d hd
    rw [subdomainFor, if_neg (fun hc => hd hc.2), hpre]

/-- Helper: a first-occurrence index returned by goIndexByte is in range. -/
theorem goIndexByte_lt_length {l : List Char} {c : Char} {i : Nat}
    (h : goIndexByte l c = some i) : i < l.length := by
  induction l generalizing i with
  | nil => simp [goIndexByte] at h
  | cons a t ih =>
    by_cases hac : a = c
    · simp [goIndexByte, hac] at h
      simp [← h]
    · simp [goIndexByte, hac] at h
      obtain ⟨j, hj, hji⟩ := h
      have := ih hj
      simp
      omega

/-- Helper: dropping everything through the first occurrence of c removes
exactly one occurrence of c. -/
theorem goIndexByte_drop_count {l : List Char} {c : Char} {i : Nat}
    (h : goIndexByte l c = some i) :
    (l.drop (i + 1)).count c + 1 = l.count c := by
  induction l generalizing i with
  | nil => simp [goIndexByte] at h
  | cons a t ih =>
    by_cases hac : a = c
    · simp [goIndexByte, hac] at h
      subst hac
      simp [← h, List.count_cons]
    · simp [goIndexByte, hac] at h
      obtain ⟨j, hj, hji⟩ := h
      have := ih hj
      subst hji
      simpa [List.count_cons, Ne.symm hac] using this

/-- Helper: goIndexByte finds no occurrence exactly when the count is 0. -/
theorem goIndexByte_none_iff (l : List Char) (c : Char) :
    goIndexByte l c = none ↔ l.count c = 0 := by
  induction l with
  | nil => simp [goIndexByte]
  | cons a t ih =>
    by_cases hac : a = c
    · subst hac
      simp [goIndexByte, List.count_cons]
    · simp [goIndexByte, hac, List.count_cons, Ne.symm hac, ih]

/-- Helper: goLastIndexByte finds no occurrence exactly when the count
is 0. -/
theorem goLastIndexByte_none_iff (l : List Char) (c : Char) :
    goLastIndexByte l c = none ↔ l.count c = 0 := by
  induction l with
  | nil => simp [goLastIndexByte]
  | cons a t ih =>
    cases hlast : goLastIndexByte t c with
    | some i =>
      have ht : t.count c ≠ 0 := fun h0 => by simp [hlast] at ih; omega
      simp [goLastIndexByte, hlast, List.count_cons]
      omega
    | none =>
      have ht : t.count c = 0 := by simpa [hlast] using ih
      by_cases hac : a = c
      · subst hac
        simp [goLastIndexByte, hlast, List.count_cons, ht]
      · simp [goLastIndexByte, hlast, hac, List.count_cons, Ne.symm hac, ht]

/-- Helper: one-step unfolding of goIndexByte on a cons cell. -/
theorem goIndexByte_cons (a : Char) (t : List Char) (c : Char) :
    goIndexByte (a :: t) c =
      if a = c then some 0 else (goIndexByte t c).map (· + 1) := rfl

/-- Helper: one-step unfolding of goLastIndexByte on a cons cell. -/
theorem goLastIndexByte_cons (a : Char) (t : List Char) (c : Char) :
    goLastIndexByte (a :: t) c =
      match goLastIndexByte t c with
      | some i => some (i + 1)
      | none => if a = c then some 0 else none := rfl

/-- Helper: occurrence count on a cons cell, phrased with propositional
equality of the characters. -/
theorem count_cons_char (a c : Char) (t : List Char) :
    (a :: t).count c = t.count c + if a = c then 1 else 0 := by
  by_cases h : a = c
  · simp [List.count_cons, h]
  · simp [List.count_cons, h, Ne.symm h]

/-- Helper: the first and last occurrence indices coincide (as options)
exactly when c occurs at most once. -/
theorem goIndexByte_eq_last_iff (l : List Char) (c : Char) :
    goIndexByte l c = goLastIndexByte l c ↔ l.count c ≤ 1 := by
  induction l with
  | nil => simp [goIndexByte, goLastIndexByte]
  | cons a t ih =>
    rw [goIndexByte_cons, goLastIndexByte_cons, count_cons_char]
    by_cases hac : a = c
    · simp only [if_pos hac]
      cases hlast : goLastIndexByte t c with
      | some i =>
        have ht : t.count c ≠ 0 := by
          intro h0
          rw [(goLastIndexByte_none_iff t c).mpr h0] at hlast
          exact Option.noConfusion hlast
        simp
        omega
      | none =>
        have ht : t.count c = 0 := (goLastIndexByte_none_iff t c).mp hlast
        simp [ht]
    · simp only [if_neg hac]
      cases hlast : goLastIndexByte t c with
      | some i =>
        cases hfirst : goIndexByte t c with
        | some j =>
          rw [hfirst, hlast] at ih
          simp at ih ⊢
          exact ih
        | none =>
          rw [hfirst, hlast] at ih
          simp at ih ⊢
          omega
      | none =>
        have ht : t.count c = 0 := (goLastIndexByte_none_iff t c).mp hlast
        have hfirst : goIndexByte t c = none := (goIndexByte_none_iff t c).mpr ht
        simp [hfirst, ht]

/-- Helper: the loop's stop condition (first dot index equals last dot
index, or there is no dot) holds exactly when the candidate has at most one
dot, that is, at most two labels. -/
theorem zone_stop_iff (l : List Char) :
    (goIndexByteInt l '.' = goLastIndexByteInt l '.' ∨ goIndexByteInt l '.' = -1) ↔
      l.count '.' ≤ 1 := by
  unfold goIndexByteInt goLastIndexByteInt
  cases hf : goIndexByte l '.' with
  | none =>
    have h0 := (goIndexByte_none_iff l '.').mp hf
    simp [h0]
  | some i =>
    cases hl : goLastIndexByte l '.' with
    | none =>
      exfalso
      have h0 := (goLastIndexByte_none_iff l '.').mp hl
      have := (goIndexByte_none_iff l '.').mpr h0
      simp [hf] at this
    | some j =>
      have hiff := goIndexByte_eq_last_iff l '.'
      rw [hf, hl] at hiff
      simp at hiff
      simp [← hiff]

/-- Helper: unfolding of one zone-walk iteration when the provider reports
a match for the current candidate. -/
theorem zoneWalkGo_found (p : List Char → Bool) (fuel : Nat) (d : List Char)
    (h : p d = true) : zoneWalkGo p (fuel + 1) d = ([d], some d) := by
  simp [zoneWalkGo, h]

/-- Helper: unfolding of one zone-walk iteration when the provider reports
no match and the stop condition holds. -/
theorem zoneWalkGo_stop (p : List Char → Bool) (fuel : Nat) (d : List Char)
    (h : p d = false)
    (hs : goIndexByteInt d '.' = goLastIndexByteInt d '.' ∨ goIndexByteInt d '.' = -1) :
    zoneWalkGo p (fuel + 1) d = ([d], none) := by
  simp [zoneWalkGo, h, hs]

/-- Helper: unfolding of one zone-walk iteration when the provider reports
no match and the loop truncates the leftmost label and retries. -/
theorem zoneWalkGo_step (p : List Char → Bool) (fuel : Nat) (d : List Char)
    (h : p d = false)
    (hs : ¬(goIndexByteInt d '.' = goLastIndexByteInt d '.' ∨ goIndexByteInt d '.' = -1)) :
    zoneWalkGo p (fuel + 1) d =
      (d :: (zoneWalkGo p fuel (d.drop ((goIndexByteInt d '.').toNat + 1))).1,
        (zoneWalkGo p fuel (d.drop ((goIndexByteInt d '.').toNat + 1))).2) := by
  simp [zoneWalkGo, h, hs]

/-- Claim C5: on the domain a.b.example.com with a provider that knows none of
the longer candidates but matches example.com, the zone walk queries
a.b.example.com, then b.example.com, then example.com, in exactly that
order, dropping one leftmost label per empty result, and stops issuing
queries at the first match, which it returns. -/
theorem zone_walk_order (p : List Char → Bool)
    (h1 : p "a.b.example.com".data = false)
    (h2 : p "b.example.com".data = false)
    (h3 : p "example.com".data = true) :
    zoneWalk p "a.b.example.com".data =
      (["a.b.example.com".data, "b.example.com".data, "example.com".data],
        some "example.com".data) := by
  have e0 : ("a.b.example.com".data.length + 1) = 15 + 1 := by decide
  have d1 : "a.b.example.com".data.drop
      ((goIndexByteInt "a.b.example.com".data '.').toNat + 1) = "b.example.com".data := by
    decide
  have d2 : "b.example.com".data.drop
      ((goIndexByteInt "b.example.com".data '.').toNat + 1) = "example.com".data := by
    decide
  have s1 : ¬(goIndexByteInt "a.b.example.com".data '.' =
      goLastIndexByteInt "a.b.example.com".data '.' ∨
      goIndexByteInt "a.b.example.com".data '.' = -1) := by decide
  have s2 : ¬(goIndexByteInt "b.example.com".data '.' =
      goLastIndexByteInt "b.example.com".data '.' ∨
      goIndexByteInt "b.example.com".data '.' = -1) := by decide
  rw [zoneWalk, e0, zoneWalkGo_step p 15 _ h1 s1, d1]
  rw [show (15 : Nat) = 14 + 1 from rfl, zoneWalkGo_step p 14 _ h2 s2, d2]
  rw [show (14 : Nat) = 13 + 1 from rfl, zoneWalkGo_found p 13 _ h3]

/-- Claim C6 counterexample: on the single-label requested domain com, with a
provider that matches nothing, the zone walk does issue a provider query for
the bare single-label name com (the one query in the trace) before failing
with zone-not-found, so the loop is not free of single-label queries on
every unmatched domain. -/
theorem zone_walk_single_label_cex :
    zoneWalk (fun _ => false) "com".data = (["com".data], none) ∧
    "com".data.count '.' = 0 :=
  ⟨by decide, by decide⟩

/-- Helper: every query the zone walk issues on a dotted candidate targets
a dotted name, because truncation only happens on candidates with at least
two dots and removes exactly one. -/
theorem zoneWalkGo_all_dotted (p : List Char → Bool) :
    ∀ (fuel : Nat) (d : List Char), d.length < fuel → 1 ≤ d.count '.' →
      ∀ q ∈ (zoneWalkGo p fuel d).1, 1 ≤ q.count '.' := by
  intro fuel
  induction fuel with
  | zero => intro d h; omega
  | succ fuel ih =>
    intro d hlen hd q hq
    by_cases hp : p d = true
    · rw [zoneWalkGo_found p fuel d hp] at hq
      simp at hq
      exact hq ▸ hd
    · have hp' : p d = false := by revert hp; cases p d <;> simp
      by_cases hs : goIndexByteInt d '.' = goLastIndexByteInt d '.' ∨
          goIndexByteInt d '.' = -1
      · rw [zoneWalkGo_stop p fuel d hp' hs] at hq
        simp at hq
        exact hq ▸ hd
      · obtain ⟨i, hi⟩ : ∃ i, goIndexByte d '.' = some i := by
          cases hgi : goIndexByte d '.' with
          | none => exact absurd (Or.inr (by simp [goIndexByteInt, hgi])) hs
          | some i => exact ⟨i, rfl⟩
        have htn : (goIndexByteInt d '.').toNat = i := by simp [goIndexByteInt, hi]
        have hcnt2 : 2 ≤ d.count '.' := by
          have := (zone_stop_iff d).not.mp hs
          omega
        have hdropc : (d.drop (i + 1)).count '.' + 1 = d.count '.' :=
          goIndexByte_drop_count hi
        have hdroplen : (d.drop (i + 1)).length < fuel := by
          have hil := goIndexByte_lt_length hi
          simp only [List.length_drop]
          omega
        rw [zoneWalkGo_step p fuel d hp' hs, htn] at hq
        simp at hq
        rcases hq with rfl | hq
        · exact hd
        · exact ih (d.drop (i + 1)) hdroplen (by omega) q hq

/-- Helper: every query in the walk's trace that is followed by a further
query has at least two dots: the loop only truncates and goes on when the
current candidate still has more than two labels' worth of dots. -/
theorem zoneWalkGo_inner_two_dots (p : List Char → Bool) :
    ∀ (fuel : Nat) (d : List Char), d.length < fuel →
      ∀ i : Nat, i + 1 < (zoneWalkGo p fuel d).1.length →
      ∀ q, (zoneWalkGo p fuel d).1[i]? = some q → 2 ≤ q.count '.' := by
  intro fuel
  induction fuel with
  | zero => intro d h; omega
  | succ fuel ih =>
    intro d hlen i hi q hq
    by_cases hp : p d = true
    · rw [zoneWalkGo_found p fuel d hp] at hi
      simp at hi
    · have hp' : p d = false := by revert hp; cases p d <;> simp
      by_cases hs : goIndexByteInt d '.' = goLastIndexByteInt d '.' ∨
          goIndexByteInt d '.' = -1
      · rw [zoneWalkGo_stop p fuel d hp' hs] at hi
        simp at hi
      · obtain ⟨j, hj⟩ : ∃ j, goIndexByte d '.' = some j := by
          cases hgj : goIndexByte d '.' with
          | none => exact absurd (Or.inr (by simp [goIndexByteInt, hgj])) hs
          | some j => exact ⟨j, rfl⟩
        have htn : (goIndexByteInt d '.').toNat = j := by simp [goIndexByteInt, hj]
        have hcnt2 : 2 ≤ d.count '.' := by
          have := (zone_stop_iff d).not.mp hs
          omega
        have hdroplen : (d.drop (j + 1)).length < fuel := by
          have hjl := goIndexByte_lt_length hj
          simp only [List.length_drop]
          omega
        rw [zoneWalkGo_step p fuel d hp' hs, htn] at hi hq
        cases i with
        | zero =>
          simp at hq
          exact hq ▸ hcnt2
        | succ k =>
          simp only [List.getElem?_cons_succ] at hq
          simp at hi
          exact ih (d.drop (j + 1)) hdroplen k (by omega) q hq

/-- Claim C6 amended: the zone walk never reaches a single-label candidate by
truncation. Whenever the requested domain itself has at least one dot,
every provider query targets a dotted (multi-label) name; and any query
followed by a further one had at least two dots, so the loop stops, with
zone-not-found when nothing matched, as soon as the current candidate has
at most one dot. Only a single-label requested domain ever produces a
single-label query, namely as the initial query itself. -/
theorem zone_walk_never_single_label (p : List Char → Bool) (d : List Char) :
    (1 ≤ d.count '.' → ∀ q ∈ (zoneWalk p d).1, 1 ≤ q.count '.') ∧
    (∀ i : Nat, i + 1 < (zoneWalk p d).1.length →
      ∀ q, (zoneWalk p d).1[i]? = some q → 2 ≤ q.count '.') := by
  constructor
  · intro hd q hq
    exact zoneWalkGo_all_dotted p (d.length + 1) d (by omega) hd q hq
  · intro i hi q hq
    exact zoneWalkGo_inner_two_dots p (d.length + 1) d (by omega) i hi q hq

/-- Witness for zone_walk_never_single_label on the domain a.b.cd with the
provider that matches nothing: the truncation-derived query b.cd keeps a
dot, and the non-final query a.b.cd had two dots. -/
theorem zone_walk_never_single_label_witness :
    1 ≤ "b.cd".data.count '.' ∧ 2 ≤ "a.b.cd".data.count '.' :=
  ⟨(zone_walk_never_single_label (fun _ => false) "a.b.cd".data).1 (by decide)
      "b.cd".data (by decide),
   (zone_walk_never_single_label (fun _ => false) "a.b.cd".data).2 0 (by decide)
      "a.b.cd".data (by decide)⟩

/-- Witness for zone_walk_order with the provider that recognizes exactly
the zone example.com. -/
theorem zone_walk_order_witness :
    zoneWalk (fun l => decide (l = "example.com".data)) "a.b.example.com".data =
      (["a.b.example.com".data, "b.example.com".data, "example.com".data],
        some "example.com".data) :=
  zone_walk_order (fun l => decide (l = "example.com".data))
    (by decide) (by decide) (by decide)

/-- Helper: the polling loop never performs more lookups than its remaining
attempt budget 30 - attempts allows, whatever the outcome stream. -/
theorem pollGo_count_le (vt : String) (σ : Nat → LookupReturn) :
    ∀ (fuel a : Nat), (pollGo vt σ fuel a).2 ≤ 30 - a := by
  intro fuel
  induction fuel with
  | zero => intro a; simp [pollGo]
  | succ fuel ih =>
    intro a
    by_cases hcase : a + 1 > 30
    · simp [pollGo, hcase]
    · have ha := ih (a + 1)
      cases hc : classifyStep vt (σ a) <;> simp [pollGo, hcase, hc] <;> omega

/-- Helper: when every examined outcome triggers a retry, the polling loop
walks the whole remaining budget and gives up, having performed exactly
30 - attempts further lookups. -/
theorem pollGo_retry_gaveUp (vt : String) (σ : Nat → LookupReturn)
    (h : ∀ i, i < 30 → classifyStep vt (σ i) = StepAct.retry) :
    ∀ (fuel a : Nat), a ≤ 30 → 30 - a < fuel →
      pollGo vt σ fuel a = (PollResult.gaveUp, 30 - a) := by
  intro fuel
  induction fuel with
  | zero => intro a _ hf; omega
  | succ fuel ih =>
    intro a ha hf
    by_cases hcase : a + 1 > 30
    · have ha30 : a = 30 := by omega
      subst ha30
      simp [pollGo]
    · have hr := ih (a + 1) (by omega) (by omega)
      have h30 : 30 - (a + 1) + 1 = 30 - a := by omega
      simp [pollGo, hcase, h a (by omega), hr, h30]
      omega

/-- Claim C3: when no lookup outcome converges (each of the first thirty triggers
a retry), the polling loop performs exactly 30 underlying lookups and then
terminates reporting that it gave up; moreover, for every outcome stream the
loop performs at most 30 lookups, and it always returns since it is a total
function of the stream. -/
theorem poller_gives_up_after_30 (vt : String) (σ : Nat → LookupReturn)
    (h : ∀ i, i < 30 → classifyStep vt (σ i) = StepAct.retry) :
    pollUntilConverged vt σ = (PollResult.gaveUp, 30) ∧
    (∀ τ : Nat → LookupReturn, (pollUntilConverged vt τ).2 ≤ 30) := by
  constructor
  · simpa [pollUntilConverged] using pollGo_retry_gaveUp vt σ h 31 0 (by omega) (by omega)
  · intro τ
    simpa [pollUntilConverged] using pollGo_count_le vt τ 31 0

/-- Witness for poller_gives_up_after_30 on the stream that always reports
the inconsistency sentinel. -/
theorem poller_gives_up_after_30_witness :
    pollUntilConverged "tok" (fun _ => ⟨none, some GoErr.inconsistent⟩) =
      (PollResult.gaveUp, 30) :=
  (poller_gives_up_after_30 "tok" (fun _ => ⟨none, some GoErr.inconsistent⟩)
    (fun _ _ =>
      show classifyStep "tok" ⟨none, some GoErr.inconsistent⟩ = StepAct.retry by decide)).1

/-- Claim C4: classification of one polling iteration. The inconsistency
sentinel, a success lacking the expected token (including an empty record
set), and an error whose message contains the record-not-found substring
each trigger a retry and are never fatal; any other error immediately ends
the poll fatally with that error unchanged. The last conjunct records that
lookupCompareTXT returns a nil record list with every error, which is why
the record-not-found retry always applies when such an error arrives. -/
theorem poller_error_classification (vt : String) :
    (∀ o : LookupReturn, o.err = some GoErr.inconsistent →
      classifyStep vt o = StepAct.retry) ∧
    (∀ m : String, strContains m "no such host" = true →
      classifyStep vt ⟨none, some (GoErr.other m)⟩ = StepAct.retry) ∧
    (∀ l : List String, strSliceLookup l vt = false →
      classifyStep vt ⟨some l, none⟩ = StepAct.retry) ∧
    (∀ (m : String) (res : Option (List String)), strContains m "no such host" = false →
      classifyStep vt ⟨res, some (GoErr.other m)⟩ = StepAct.fatal (GoErr.other m)) ∧
    (∀ (σ : Nat → LookupReturn) (e : GoErr), classifyStep vt (σ 0) = StepAct.fatal e →
      pollUntilConverged vt σ = (PollResult.fatal e, 1)) ∧
    (∀ a1 a2 : LookupReturn, (lookupCompareTXT a1 a2).err ≠ none →
      (lookupCompareTXT a1 a2).res = none) := by
  refine ⟨?_, ?_, ?_, ?_, ?_, ?_⟩
  · intro o h
    simp [classifyStep, h]
  · intro m h
    simp [classifyStep, errMessage, h, resTokenCheck]
  · intro l h
    simp [classifyStep, resTokenCheck, h]
  · intro m res h
    simp [classifyStep, errMessage, h]
  · intro σ e h
    simp [pollUntilConverged, pollGo, h]
  · intro a1 a2 h
    obtain ⟨r1, e1⟩ := a1
    obtain ⟨r2, e2⟩ := a2
    cases e1 <;> cases e2 <;> cases r1 <;> cases r2 <;>
      first
      | (simp_all [lookupCompareTXT]; split_ifs at h ⊢ <;> simp_all)
      | simp_all [lookupCompareTXT]

/-- Witness for poller_error_classification: one concrete instance of each
classification branch, including a fatal transport error ending the poll on
its first attempt. -/
theorem poller_error_classification_witness :
    classifyStep "tok" ⟨none, some GoErr.inconsistent⟩ = StepAct.retry ∧
    classifyStep "tok" ⟨none, some (GoErr.other "lookup x: no such host")⟩ = StepAct.retry ∧
    classifyStep "tok" ⟨some ["other"], none⟩ = StepAct.retry ∧
    classifyStep "tok" ⟨none, some (GoErr.other "connection refused")⟩ =
      StepAct.fatal (GoErr.other "connection refused") ∧
    pollUntilConverged "tok" (fun _ => ⟨none, some (GoErr.other "connection refused")⟩) =
      (PollResult.fatal (GoErr.other "connection refused"), 1) :=
  ⟨(poller_error_classification "tok").1 ⟨none, some GoErr.inconsistent⟩ rfl,
   (poller_error_classification "tok").2.1 "lookup x: no such host" (by decide),
   (poller_error_classification "tok").2.2.1 ["other"] (by decide),
   (poller_error_classification "tok").2.2.2.1 "connection refused" none (by decide),
   (poller_error_classification "tok").2.2.2.2.1
     (fun _ => ⟨none, some (GoErr.other "connection refused")⟩)
     (GoErr.other "connection refused") (by decide)⟩

/-- Witness for challenge_record_name at the wildcard domain *.example.com
and the non-wildcard subdomain sub.example.com. -/
theorem challenge_record_name_witness :
    ("example.com".data ≠ ([] : List Char)) ∧
    subdomainFor ('*' :: '.' :: "example.com".data) =
      "_acme-challenge.".data ++ "example.com".data ∧
    ("sub.example.com".data.take 2 ≠ ['*', '.']) ∧
    subdomainFor "sub.example.com".data = "_acme-challenge.".data ++ "sub.example.com".data :=
  ⟨by decide, challenge_record_name.1 "example.com".data (by decide),
   by decide, challenge_record_name.2.1 "sub.example.com".data (by decide)⟩
